import Mathlib

/-!
Verification of the chunked-transcription core of `src/transcribe_app.py`.

The script splits a decoded audio track of `total_length_ms` milliseconds
into chunks of at most `CHUNK_LENGTH_MS` milliseconds, transcribes each
chunk in index order with `model.transcribe(path, fp16=False, language="ja")`,
accumulates the per-chunk texts in `all_transcripts`, and joins them with
`" ".join(all_transcripts).strip()`.  Progress updates go through the
Streamlit widgets `progress_bar.progress(pct, text=...)`; any exception
raised inside the `try` block (backend or widget) is caught by the single
generic `except Exception` handler, which displays the exception and ends
the run without producing a transcript.

The embedding below keeps the chunk length as a parameter `L` (the spec's
`chunk_length_ms` configuration); the script instantiates it with the
constant `CHUNK_LENGTH_MS`.  The transcription backend is a function from
the call arguments to `Except`, a progress sink likewise; exceptions are
`Except.error`.
-/

namespace TranscribeApp

/-- The constant `CHUNK_LENGTH_MS = 10 * 60 * 1000` (line 15 of the script). -/
def CHUNK_LENGTH_MS : Nat := 10 * 60 * 1000

/-- Line 98: `num_chunks = math.ceil(total_length_ms / CHUNK_LENGTH_MS)`,
with the chunk length kept as a parameter.  Python divides exactly here for
every realistic millisecond duration, so the ceiling of the quotient is the
exact ceiling division on `Nat`; the theorem `num_chunks_eq_rat_ceil` below
relates this definition to the rational ceiling. -/
def num_chunks (total_length_ms chunk_length_ms : Nat) : Nat :=
  (total_length_ms + chunk_length_ms - 1) / chunk_length_ms

/-- Lines 115-116: `start_ms = i * CHUNK_LENGTH_MS` and
`end_ms = min((i + 1) * CHUNK_LENGTH_MS, total_length_ms)`: the half-open
boundaries of chunk `i`. -/
def segment_bounds (total_length_ms chunk_length_ms i : Nat) : Nat × Nat :=
  (i * chunk_length_ms, min ((i + 1) * chunk_length_ms) total_length_ms)

/-- The list of chunk boundaries produced by the loop `for i in
range(num_chunks)` (line 108). -/
def segments (total_length_ms chunk_length_ms : Nat) : List (Nat × Nat) :=
  (List.range (num_chunks total_length_ms chunk_length_ms)).map
    (fun i => segment_bounds total_length_ms chunk_length_ms i)

/-- The arguments of one `model.transcribe(chunk_wav_path, fp16=False,
language="ja")` call (line 124).  The chunk audio is determined by the
chunk index, so the index stands for the `chunk_wav_path` argument. -/
structure TranscribeArgs where
  chunkIndex : Nat
  fp16 : Bool
  language : String
  deriving Repr, DecidableEq

/-- A transcription backend: one `model.transcribe` call either returns the
recognized text or raises (`Except.error` with the exception message). -/
def Backend : Type := TranscribeArgs → Except String String

/-- A progress sink: a `progress_bar.progress(pct, text=...)` call either
returns or raises.  It receives the percentage and the message. -/
def Sink : Type := Nat → String → Except String Unit

/-- Observable side effects of a run, in order of occurrence: progress
updates shown to the user and backend invocations. -/
inductive Event where
  | progress (pct : Nat) (msg : String)
  | backendCall (args : TranscribeArgs)
  deriving Repr, DecidableEq

/-- The final state of a run as exposed to the caller:
`skipped` — the `num_chunks == 0` branch (lines 103-105): a warning and a
"完了（スキップ）" progress update, no transcript;
`finished t` — the `else` branch completed and rendered `full_transcript = t`
(lines 131-142);
`failed e` — an exception reached the `except Exception` handler (lines
159-164), which displays the exception `e` and an error status. -/
inductive RunOutcome where
  | skipped
  | finished (transcript : String)
  | failed (err : String)
  deriving Repr, DecidableEq

/-- Outcome plus the trace of observable events of the run. -/
structure RunResult where
  outcome : RunOutcome
  events : List Event
  deriving Repr, DecidableEq

/-- The Python method `str.strip()`: drop leading and trailing whitespace
characters.  Stated on the character list of the string so that it is
computable by the kernel. -/
def pyStrip (s : String) : String :=
  ⟨((s.data.dropWhile Char.isWhitespace).reverse.dropWhile
      Char.isWhitespace).reverse⟩

/-- Line 111: `progress_percentage = 15 + int((current_chunk_num /
num_chunks) * 85)`. -/
def chunkProgressPct (current total : Nat) : Nat := 15 + current * 85 / total

/-- Line 112: the message "チャンク {current}/{total} を処理中...". -/
def chunkMessage (current total : Nat) : String :=
  "チャンク " ++ toString current ++ "/" ++ toString total ++ " を処理中..."

/-- The loop `for i in range(num_chunks)` (lines 108-129), starting at
chunk `i` with `remaining` iterations left (the loop runs with
`remaining = total`, `i = 0`): per chunk, the progress update, then the
backend call with `fp16=False, language="ja"`, appending the text to the
accumulator `all_transcripts`.  An exception from either call aborts with
that exception; otherwise the accumulated texts are returned.  The second
component is the event trace. -/
def processChunks (backend : Backend) (sink : Sink) (total : Nat) :
    Nat → Nat → List String → List Event → Except String (List String) × List Event
  | 0, _, acc, evs => (.ok acc, evs)
  | remaining + 1, i, acc, evs =>
    let pct := chunkProgressPct (i + 1) total
    let msg := chunkMessage (i + 1) total
    let evs1 := evs ++ [Event.progress pct msg]
    match sink pct msg with
    | .error e => (.error e, evs1)
    | .ok _ =>
      let args : TranscribeArgs := ⟨i, false, "ja"⟩
      let evs2 := evs1 ++ [Event.backendCall args]
      match backend args with
      | .error e => (.error e, evs2)
      | .ok t => processChunks backend sink total remaining (i + 1) (acc ++ [t]) evs2

/-- The three preparation-phase progress updates (lines 78, 81, 94). -/
def prepUpdates : List (Nat × String) :=
  [(5, "ファイルを一時保存中..."), (10, "WAV形式に変換中..."), (15, "文字起こし準備中...")]

/-- The run from the point where `total_length_ms` is known (line 97):
compute `num_chunks`; if zero, emit the "完了（スキップ）" update and stop
without a transcript; otherwise run the chunk loop, and on success emit the
final update and render `full_transcript = " ".join(all_transcripts).strip()`
(line 135).  A sink exception aborts like any other. -/
def runFromChunks (total_length_ms chunk_length_ms : Nat)
    (backend : Backend) (sink : Sink) : RunResult :=
  let n := num_chunks total_length_ms chunk_length_ms
  if n = 0 then
    match sink 100 "完了（スキップ）" with
    | .error e => ⟨.failed e, []⟩
    | .ok _ => ⟨.skipped, [Event.progress 100 "完了（スキップ）"]⟩
  else
    match processChunks backend sink n n 0 [] [] with
    | (.error e, evs) => ⟨.failed e, evs⟩
    | (.ok ts, evs) =>
      match sink 100 "文字起こし完了！" with
      | .error e => ⟨.failed e, evs⟩
      | .ok _ =>
        ⟨.finished (pyStrip (String.intercalate " " ts)),
          evs ++ [Event.progress 100 "文字起こし完了！"]⟩

/-- The whole guarded region (lines 69-164): the preparation-phase progress
updates, then `runFromChunks`.  A sink exception during preparation is
caught by the same handler. -/
def run (total_length_ms chunk_length_ms : Nat)
    (backend : Backend) (sink : Sink) : RunResult :=
  match sink 5 "ファイルを一時保存中..." with
  | .error e => ⟨.failed e, []⟩
  | .ok _ =>
    match sink 10 "WAV形式に変換中..." with
    | .error e => ⟨.failed e, [Event.progress 5 "ファイルを一時保存中..."]⟩
    | .ok _ =>
      match sink 15 "文字起こし準備中..." with
      | .error e => ⟨.failed e, [Event.progress 5 "ファイルを一時保存中...",
          Event.progress 10 "WAV形式に変換中..."]⟩
      | .ok _ =>
        let r := runFromChunks total_length_ms chunk_length_ms backend sink
        ⟨r.outcome, (prepUpdates.map fun p => Event.progress p.1 p.2) ++ r.events⟩

/-- The backend invocations recorded in a trace, in order. -/
def backendCalls : List Event → List TranscribeArgs
  | [] => []
  | Event.backendCall a :: es => a :: backendCalls es
  | Event.progress _ _ :: es => backendCalls es

/-- Whether an event is the skipped-completion progress update of the
`num_chunks == 0` branch (line 105). -/
def isSkippedUpdate : Event → Bool
  | Event.progress _ msg => msg = "完了（スキップ）"
  | Event.backendCall _ => false

/-- A sink that never raises. -/
def okSink : Sink := fun _ _ => .ok ()

/-- A second sink that never raises (distinct definition). -/
def okSink2 : Sink := fun p _ => if p = 0 then .ok () else .ok ()

/-- A backend that always succeeds with the fixed text "text". -/
def constBackend : Backend := fun _ => .ok "text"

/-- A backend that raises "backend failure" exactly on chunk `k`. -/
def failAt (k : Nat) : Backend :=
  fun a => if a.chunkIndex = k then .error "backend failure" else .ok "text"

/-- A sink that raises once the reported percentage reaches 16, i.e. on the
first per-chunk progress update but on none of the preparation updates. -/
def badSink : Sink := fun p _ => if 16 ≤ p then .error "sink boom" else .ok ()

/-- Per-chunk texts of the two-segment scenario of the specification. -/
def jaTexts : Nat → String := fun j => if j = 0 then "こんにちは" else "世界"

/-- The backend of the two-segment scenario: "こんにちは" for chunk 0 and
"世界" for every later chunk. -/
def jaBackend : Backend := fun a => .ok (jaTexts a.chunkIndex)

/-! Arithmetic facts about `num_chunks`. -/

theorem num_chunks_eq_ceilDiv (D L : Nat) : num_chunks D L = D ⌈/⌉ L :=
  (Nat.ceilDiv_eq_add_pred_div D L).symm

theorem le_mul_num_chunks (D L : Nat) (hL : 0 < L) : D ≤ L * num_chunks D L := by
  rw [num_chunks_eq_ceilDiv]
  exact (ceilDiv_le_iff_le_mul hL).1 le_rfl

theorem mul_num_chunks_pred_lt (D L : Nat) (hL : 0 < L)
    (hn : 0 < num_chunks D L) : L * (num_chunks D L - 1) < D := by
  by_contra h
  have h2 : D ≤ L * (num_chunks D L - 1) := Nat.le_of_not_lt h
  have h3 : num_chunks D L ≤ num_chunks D L - 1 := by
    rw [num_chunks_eq_ceilDiv] at hn ⊢
    rw [num_chunks_eq_ceilDiv] at h2
    exact (ceilDiv_le_iff_le_mul hL).2 h2
  omega

theorem num_chunks_pos_iff (D L : Nat) (hL : 0 < L) :
    0 < num_chunks D L ↔ 0 < D := by
  constructor
  · intro h
    by_contra hD
    have hD0 : D = 0 := by omega
    subst hD0
    have h0 : num_chunks 0 L ≤ 0 := by
      rw [num_chunks_eq_ceilDiv]
      exact (ceilDiv_le_iff_le_mul hL).2 (by simp)
    omega
  · intro hD
    by_contra h
    have h0 : num_chunks D L = 0 := by omega
    have h1 := le_mul_num_chunks D L hL
    rw [h0, Nat.mul_zero] at h1
    omega

theorem num_chunks_zero_left (L : Nat) (hL : 0 < L) : num_chunks 0 L = 0 := by
  unfold num_chunks
  exact Nat.div_eq_of_lt (by omega)

theorem num_chunks_eq_div_add (D L : Nat) (hL : 0 < L) :
    num_chunks D L = D / L + if D % L = 0 then 0 else 1 := by
  have hdm : L * (D / L) + D % L = D := Nat.div_add_mod D L
  have hm : D % L < L := Nat.mod_lt _ hL
  unfold num_chunks
  by_cases hr : D % L = 0
  · rw [hr, if_pos rfl, Nat.add_zero]
    have heq : D + L - 1 = L * (D / L) + (L - 1) := by omega
    rw [heq, Nat.mul_add_div hL,
      Nat.div_eq_of_lt (show L - 1 < L by omega), Nat.add_zero]
  · rw [if_neg hr]
    have hms : L * (D / L + 1) = L * (D / L) + L := Nat.mul_succ L (D / L)
    have heq : D + L - 1 = L * (D / L + 1) + (D % L - 1) := by omega
    rw [heq, Nat.mul_add_div hL,
      Nat.div_eq_of_lt (show D % L - 1 < L by omega), Nat.add_zero]

/-- When `i + 1` is not the last chunk index bound, the nominal end
`(i + 1) * L` stays within the track. -/
theorem succ_mul_le_of_lt_num_chunks (D L i : Nat) (hL : 0 < L)
    (h : i + 1 < num_chunks D L) : (i + 1) * L ≤ D := by
  have hb := mul_num_chunks_pred_lt D L hL (by omega)
  have h1 : (i + 1) * L ≤ (num_chunks D L - 1) * L :=
    Nat.mul_le_mul_right _ (by omega)
  have h2 : (num_chunks D L - 1) * L = L * (num_chunks D L - 1) :=
    Nat.mul_comm _ _
  calc (i + 1) * L ≤ (num_chunks D L - 1) * L := h1
    _ = L * (num_chunks D L - 1) := h2
    _ ≤ D := Nat.le_of_lt hb

/-! Structural facts about the chunk loop. -/

theorem backendCalls_append (a b : List Event) :
    backendCalls (a ++ b) = backendCalls a ++ backendCalls b := by
  induction a with
  | nil => rfl
  | cons e es ih => cases e <;> simp [backendCalls, ih]

/-- When every sink call and every backend call succeeds, the loop returns
the accumulator extended with the backend texts of the remaining chunk
indices, in index order. -/
theorem processChunks_ok_texts (backend : Backend) (sink : Sink) (total : Nat)
    (texts : Nat → String)
    (hsink : ∀ p m, sink p m = .ok ())
    (hb : ∀ a, backend a = .ok (texts a.chunkIndex)) :
    ∀ remaining i acc evs,
      (processChunks backend sink total remaining i acc evs).1 =
        .ok (acc ++ (List.range' i remaining).map texts) := by
  intro remaining
  induction remaining with
  | zero => intro i acc evs; simp [processChunks]
  | succ rem ih =>
    intro i acc evs
    simp only [processChunks, hsink, hb]
    rw [ih]
    simp [List.range']

/-- When the sink succeeds, the backend succeeds on every chunk index below
`k` and raises `e` on chunk `k`, and `k` is among the remaining indices,
the loop aborts with `e`. -/
theorem processChunks_fails_at (backend : Backend) (sink : Sink)
    (total k : Nat) (e : String)
    (hsink : ∀ p m, sink p m = .ok ())
    (hok : ∀ a : TranscribeArgs, a.chunkIndex < k → ∃ t, backend a = .ok t)
    (herr : ∀ a : TranscribeArgs, a.chunkIndex = k → backend a = .error e) :
    ∀ remaining i acc evs, i ≤ k → k < i + remaining →
      (processChunks backend sink total remaining i acc evs).1 = .error e := by
  intro remaining
  induction remaining with
  | zero => intro i acc evs h1 h2; omega
  | succ rem ih =>
    intro i acc evs h1 h2
    simp only [processChunks, hsink]
    by_cases hik : i = k
    · rw [herr ⟨i, false, "ja"⟩ hik]
    · obtain ⟨t, ht⟩ := hok ⟨i, false, "ja"⟩ (by simp only []; omega)
      rw [ht]
      exact ih (i + 1) (acc ++ [t]) _ (by omega) (by omega)

/-- The loop result does not depend on the sink as long as the sink never
raises. -/
theorem processChunks_sink_irrelevant (backend : Backend) (s1 s2 : Sink)
    (total : Nat)
    (h1 : ∀ p m, s1 p m = .ok ()) (h2 : ∀ p m, s2 p m = .ok ()) :
    ∀ remaining i acc evs,
      processChunks backend s1 total remaining i acc evs =
        processChunks backend s2 total remaining i acc evs := by
  intro remaining
  induction remaining with
  | zero => intro i acc evs; rfl
  | succ rem ih =>
    intro i acc evs
    simp only [processChunks, h1, h2]
    cases backend ⟨i, false, "ja"⟩ with
    | error e => rfl
    | ok t => exact ih (i + 1) (acc ++ [t]) _

/-- The backend invocations recorded by the loop are a contiguous run of
chunk indices starting at `i`, each with `fp16=False, language="ja"`. -/
theorem processChunks_calls (backend : Backend) (sink : Sink) (total : Nat) :
    ∀ remaining i acc evs, ∃ m, m ≤ remaining ∧
      backendCalls (processChunks backend sink total remaining i acc evs).2 =
        backendCalls evs ++
          (List.range' i m).map (fun j => (⟨j, false, "ja"⟩ : TranscribeArgs)) := by
  intro remaining
  induction remaining with
  | zero =>
    intro i acc evs
    exact ⟨0, Nat.le_refl 0, by simp [processChunks]⟩
  | succ rem ih =>
    intro i acc evs
    simp only [processChunks]
    cases hs : sink (chunkProgressPct (i + 1) total) (chunkMessage (i + 1) total) with
    | error e =>
      refine ⟨0, by omega, ?_⟩
      simp [backendCalls_append, backendCalls]
    | ok u =>
      cases hb : backend ⟨i, false, "ja"⟩ with
      | error e =>
        refine ⟨1, by omega, ?_⟩
        simp [backendCalls_append, backendCalls, List.range']
      | ok t =>
        obtain ⟨m, hm, hcalls⟩ := ih (i + 1) (acc ++ [t])
          ((evs ++ [Event.progress (chunkProgressPct (i + 1) total)
            (chunkMessage (i + 1) total)]) ++ [Event.backendCall ⟨i, false, "ja"⟩])
        refine ⟨m + 1, by omega, ?_⟩
        rw [hcalls]
        simp [backendCalls_append, backendCalls, List.range']

/-- The backend invocations of a whole run are exactly the chunk indices
`0, 1, ..., m-1` for some `m` at most the chunk count, each invoked with
`fp16=False, language="ja"`. -/
theorem run_backendCalls (D L : Nat) (backend : Backend) (sink : Sink) :
    ∃ m, m ≤ num_chunks D L ∧
      backendCalls (run D L backend sink).events =
        (List.range m).map (fun j => (⟨j, false, "ja"⟩ : TranscribeArgs)) := by
  unfold run
  cases h5 : sink 5 "ファイルを一時保存中..." with
  | error e => exact ⟨0, Nat.zero_le _, by simp [backendCalls]⟩
  | ok u5 =>
  cases h10 : sink 10 "WAV形式に変換中..." with
  | error e => exact ⟨0, Nat.zero_le _, by simp [backendCalls]⟩
  | ok u10 =>
  cases h15 : sink 15 "文字起こし準備中..." with
  | error e => exact ⟨0, Nat.zero_le _, by simp [backendCalls]⟩
  | ok u15 =>
  simp only [backendCalls_append]
  have hprep : backendCalls (prepUpdates.map fun p => Event.progress p.1 p.2) = [] := rfl
  rw [hprep]
  unfold runFromChunks
  by_cases hn : num_chunks D L = 0
  · rw [if_pos hn]
    cases h100 : sink 100 "完了（スキップ）" with
    | error e => exact ⟨0, Nat.zero_le _, by simp [backendCalls]⟩
    | ok u100 => exact ⟨0, Nat.zero_le _, by simp [backendCalls]⟩
  · rw [if_neg hn]
    obtain ⟨m, hm, hcalls⟩ := processChunks_calls backend sink (num_chunks D L)
      (num_chunks D L) 0 [] []
    rcases hres : processChunks backend sink (num_chunks D L) (num_chunks D L) 0 [] []
      with ⟨res, evs⟩
    rw [hres] at hcalls
    simp only [backendCalls] at hcalls
    rw [← List.range_eq_range'] at hcalls
    cases res with
    | error e => exact ⟨m, hm, by simpa using hcalls⟩
    | ok ts =>
      cases h100 : sink 100 "文字起こし完了！" with
      | error e => exact ⟨m, hm, by simpa using hcalls⟩
      | ok u100 =>
        refine ⟨m, hm, ?_⟩
        simp only [backendCalls_append]
        simp only [backendCalls] at hcalls ⊢
        simpa using hcalls

/-! Claim theorems. -/

/-- C1: in every run in which every chunk transcribes successfully, the
final transcript is the per-chunk backend texts joined in ascending chunk
index order with a single space and stripped of outer whitespace. -/
theorem C1_transcript_is_ordered_join (D L : Nat) (backend : Backend)
    (sink : Sink) (texts : Nat → String) (hD : 0 < D) (hL : 0 < L)
    (hsink : ∀ p m, sink p m = .ok ())
    (hb : ∀ a, backend a = .ok (texts a.chunkIndex)) :
    (run D L backend sink).outcome =
      RunOutcome.finished (pyStrip (String.intercalate " "
        ((List.range (num_chunks D L)).map texts))) := by
  have hn : ¬ num_chunks D L = 0 := by
    have := (num_chunks_pos_iff D L hL).2 hD
    omega
  have hp := processChunks_ok_texts backend sink (num_chunks D L) texts hsink hb
    (num_chunks D L) 0 [] []
  simp only [run, hsink]
  unfold runFromChunks
  simp only [if_neg hn]
  rcases hres : processChunks backend sink (num_chunks D L) (num_chunks D L) 0 [] []
    with ⟨res, evs⟩
  rw [hres] at hp
  simp only [List.nil_append] at hp
  rw [hp]
  simp [hsink, List.range_eq_range']

/-- C1 witness: the two-chunk scenario with backend texts "こんにちは" and
"世界" produces the transcript "こんにちは 世界". -/
theorem C1_witness :
    0 < 1200000 ∧ 0 < 600000 ∧
      (run 1200000 600000 jaBackend okSink).outcome =
        RunOutcome.finished "こんにちは 世界" := by
  refine ⟨by decide, by decide, ?_⟩
  have h := C1_transcript_is_ordered_join 1200000 600000 jaBackend okSink jaTexts
    (by decide) (by decide) (fun p m => rfl) (fun a => rfl)
  rw [h]
  decide

/-- C2 (amended): when the sink never raises, the backend succeeds below
chunk `k` and raises `e` on chunk `k < num_chunks`, the whole run aborts:
the outcome is the failure carrying the backend error `e` alone, and no
final transcript is produced (the accumulated texts are discarded). -/
theorem C2_failure_aborts_run (D L k : Nat) (e : String) (backend : Backend)
    (sink : Sink) (hk : k < num_chunks D L)
    (hsink : ∀ p m, sink p m = .ok ())
    (hok : ∀ a : TranscribeArgs, a.chunkIndex < k → ∃ t, backend a = .ok t)
    (herr : ∀ a : TranscribeArgs, a.chunkIndex = k → backend a = .error e) :
    (run D L backend sink).outcome = RunOutcome.failed e ∧
      ∀ t, (run D L backend sink).outcome ≠ RunOutcome.finished t := by
  have hn : ¬ num_chunks D L = 0 := by omega
  have hp := processChunks_fails_at backend sink (num_chunks D L) k e hsink hok herr
    (num_chunks D L) 0 [] [] (by omega) (by omega)
  have hmain : (run D L backend sink).outcome = RunOutcome.failed e := by
    simp only [run, hsink]
    unfold runFromChunks
    simp only [if_neg hn]
    rcases hres : processChunks backend sink (num_chunks D L) (num_chunks D L) 0 [] []
      with ⟨res, evs⟩
    rw [hres] at hp
    simp only [] at hp
    rw [hp]
  refine ⟨hmain, fun t => ?_⟩
  rw [hmain]
  simp

/-- C2 witness: with three chunks and a backend that raises on chunk 1, the
run aborts with the backend error and no transcript. -/
theorem C2_witness :
    1 < num_chunks 1800000 600000 ∧
      (run 1800000 600000 (failAt 1) okSink).outcome =
        RunOutcome.failed "backend failure" ∧
      ∀ t, (run 1800000 600000 (failAt 1) okSink).outcome ≠
        RunOutcome.finished t := by
  refine ⟨by decide, ?_⟩
  exact C2_failure_aborts_run 1800000 600000 1 "backend failure" (failAt 1) okSink
    (by decide) (fun p m => rfl)
    (fun a ha => ⟨"text", by unfold failAt; rw [if_neg (by omega)]⟩)
    (fun a ha => by unfold failAt; rw [if_pos ha])

/-- C2 counterexample: two runs whose backend fails at chunk 0 and at
chunk 1 respectively (as the backend-call traces show) surface the very
same outcome, so the error surfaced to the caller does not identify the
index of the failing chunk. -/
theorem C2_counterexample :
    (run 1800000 600000 (failAt 0) okSink).outcome =
        RunOutcome.failed "backend failure" ∧
      (run 1800000 600000 (failAt 1) okSink).outcome =
        RunOutcome.failed "backend failure" ∧
      (backendCalls (run 1800000 600000 (failAt 0) okSink).events).map
          TranscribeArgs.chunkIndex = [0] ∧
      (backendCalls (run 1800000 600000 (failAt 1) okSink).events).map
          TranscribeArgs.chunkIndex = [0, 1] ∧
      (run 1800000 600000 (failAt 0) okSink).outcome =
        (run 1800000 600000 (failAt 1) okSink).outcome := by
  decide

/-- C3: the chunk count computed before the loop is the ceiling of the
exact rational quotient of the duration by the chunk length. -/
theorem C3_num_chunks_rat_ceil (D L : Nat) (hL : 0 < L) :
    (num_chunks D L : ℤ) = ⌈(D : ℚ) / (L : ℚ)⌉ := by
  have hL' : (0 : ℚ) < (L : ℚ) := by exact_mod_cast hL
  by_cases hD : D = 0
  · subst hD
    rw [num_chunks_zero_left L hL]
    simp
  · have hDpos : 0 < D := Nat.pos_of_ne_zero hD
    have hn : 0 < num_chunks D L := (num_chunks_pos_iff D L hL).2 hDpos
    have b1 : D ≤ L * num_chunks D L := le_mul_num_chunks D L hL
    have b2 : L * (num_chunks D L - 1) < D := mul_num_chunks_pred_lt D L hL hn
    symm
    rw [Int.ceil_eq_iff]
    constructor
    · rw [lt_div_iff₀ hL']
      push_cast
      have b2' : (L : ℚ) * ((num_chunks D L : ℚ) - 1) < (D : ℚ) := by
        have h1 : ((L * (num_chunks D L - 1) : Nat) : ℚ) < ((D : Nat) : ℚ) := by
          exact_mod_cast b2
        rw [Nat.cast_mul, Nat.cast_sub (by omega)] at h1
        simpa using h1
      nlinarith [b2']
    · rw [div_le_iff₀ hL']
      push_cast
      have b1' : (D : ℚ) ≤ (L : ℚ) * (num_chunks D L : ℚ) := by exact_mod_cast b1
      nlinarith [b1']

/-- C3 witness: with a 900000 ms track and 600000 ms chunks the count is
the rational ceiling of the quotient. -/
theorem C3_witness :
    0 < 600000 ∧
      (num_chunks 900000 600000 : ℤ) = ⌈(900000 : ℚ) / (600000 : ℚ)⌉ :=
  ⟨by decide, C3_num_chunks_rat_ceil 900000 600000 (by decide)⟩

/-- C4: every segment produced by the loop has boundaries
`(i * L, min ((i + 1) * L) D)` for its index `i`, never extending past the
track duration; with `D = 900000` and `L = 600000` the segments are exactly
`[0, 600000)` and `[600000, 900000)`. -/
theorem C4_segment_bounds_within_track :
    (∀ D L : Nat, ∀ s ∈ segments D L, s.2 ≤ D ∧
      ∃ i, i < num_chunks D L ∧ s = (i * L, min ((i + 1) * L) D)) ∧
    segments 900000 600000 = [(0, 600000), (600000, 900000)] := by
  constructor
  · intro D L s hs
    simp only [segments, List.mem_map, List.mem_range] at hs
    obtain ⟨i, hi, rfl⟩ := hs
    exact ⟨Nat.min_le_right _ _, i, hi, rfl⟩
  · decide

/-- C4 witness: the second segment of the 900000 ms / 600000 ms scenario is
a member, stays within the track, and has the stated boundary form. -/
theorem C4_witness :
    (600000, 900000) ∈ segments 900000 600000 ∧
      ((600000, 900000) : Nat × Nat).2 ≤ 900000 ∧
      ∃ i, i < num_chunks 900000 600000 ∧
        ((600000, 900000) : Nat × Nat) =
          (i * 600000, min ((i + 1) * 600000) 900000) :=
  ⟨by decide,
    C4_segment_bounds_within_track.1 900000 600000 (600000, 900000) (by decide)⟩

/-- C6: for positive duration and chunk length the segments are pairwise
disjoint, cover `[0, D)` exactly once, are each at most `L` long, and every
non-final segment is exactly `L` long. -/
theorem C6_segments_partition (D L : Nat) (hD : 0 < D) (hL : 0 < L) :
    (∀ i j, i < j → j < num_chunks D L →
        (segment_bounds D L i).2 ≤ (segment_bounds D L j).1) ∧
    (∀ t, t < D → ∃! i, i < num_chunks D L ∧
        (segment_bounds D L i).1 ≤ t ∧ t < (segment_bounds D L i).2) ∧
    (∀ i, i < num_chunks D L →
        (segment_bounds D L i).2 - (segment_bounds D L i).1 ≤ L) ∧
    (∀ i, i + 1 < num_chunks D L →
        (segment_bounds D L i).2 - (segment_bounds D L i).1 = L) := by
  refine ⟨?_, ?_, ?_, ?_⟩
  · intro i j hij hj
    simp only [segment_bounds]
    calc min ((i + 1) * L) D ≤ (i + 1) * L := Nat.min_le_left _ _
      _ ≤ j * L := Nat.mul_le_mul_right _ (by omega)
  · intro t ht
    have hcov : D ≤ L * num_chunks D L := le_mul_num_chunks D L hL
    have h1 : t / L * L ≤ t := Nat.div_mul_le_self t L
    have h2 := Nat.div_add_mod t L
    have h3 : t % L < L := Nat.mod_lt _ hL
    have hcomm : t / L * L = L * (t / L) := Nat.mul_comm _ _
    have hi : t / L < num_chunks D L := by
      rw [Nat.div_lt_iff_lt_mul hL]
      calc t < D := ht
        _ ≤ L * num_chunks D L := hcov
        _ = num_chunks D L * L := Nat.mul_comm _ _
    refine ⟨t / L, ⟨hi, ?_, ?_⟩, ?_⟩
    · simpa [segment_bounds] using h1
    · simp only [segment_bounds]
      refine lt_min ?_ ht
      have h4 : (t / L + 1) * L = t / L * L + L := Nat.succ_mul _ _
      omega
    · rintro j ⟨hj, hj1, hj2⟩
      simp only [segment_bounds] at hj1 hj2
      have hj3 : t < (j + 1) * L := lt_of_lt_of_le hj2 (Nat.min_le_left _ _)
      exact (Nat.div_eq_of_lt_le hj1 hj3).symm
  · intro i hi
    simp only [segment_bounds]
    have h1 : min ((i + 1) * L) D ≤ (i + 1) * L := Nat.min_le_left _ _
    have h2 : (i + 1) * L = i * L + L := Nat.succ_mul _ _
    omega
  · intro i hi
    simp only [segment_bounds]
    have h1 : (i + 1) * L ≤ D := succ_mul_le_of_lt_num_chunks D L i hL hi
    rw [Nat.min_eq_left h1]
    have h2 : (i + 1) * L = i * L + L := Nat.succ_mul _ _
    omega

/-- C6 witness: the partition properties hold in the 900000 ms / 600000 ms
scenario. -/
theorem C6_witness :
    0 < 900000 ∧ 0 < 600000 ∧
      ((∀ i j, i < j → j < num_chunks 900000 600000 →
          (segment_bounds 900000 600000 i).2 ≤ (segment_bounds 900000 600000 j).1) ∧
      (∀ t, t < 900000 → ∃! i, i < num_chunks 900000 600000 ∧
          (segment_bounds 900000 600000 i).1 ≤ t ∧
            t < (segment_bounds 900000 600000 i).2) ∧
      (∀ i, i < num_chunks 900000 600000 →
          (segment_bounds 900000 600000 i).2 -
            (segment_bounds 900000 600000 i).1 ≤ 600000) ∧
      (∀ i, i + 1 < num_chunks 900000 600000 →
          (segment_bounds 900000 600000 i).2 -
            (segment_bounds 900000 600000 i).1 = 600000)) :=
  ⟨by decide, by decide, C6_segments_partition 900000 600000 (by decide) (by decide)⟩

/-- C7: for positive duration and chunk length, the final segment is
`D mod L` long, unless that remainder is zero, in which case it is `L`
long. -/
theorem C7_last_segment_length (D L : Nat) (hD : 0 < D) (hL : 0 < L) :
    (segment_bounds D L (num_chunks D L - 1)).2 -
      (segment_bounds D L (num_chunks D L - 1)).1 =
    if D % L = 0 then L else D % L := by
  have hn : 0 < num_chunks D L := (num_chunks_pos_iff D L hL).2 hD
  have hne := num_chunks_eq_div_add D L hL
  have hdm : L * (D / L) + D % L = D := Nat.div_add_mod D L
  have hmlt : D % L < L := Nat.mod_lt _ hL
  have hle : D ≤ L * num_chunks D L := le_mul_num_chunks D L hL
  simp only [segment_bounds]
  have hidx : num_chunks D L - 1 + 1 = num_chunks D L := by omega
  rw [hidx]
  have hend : min (num_chunks D L * L) D = D :=
    Nat.min_eq_right (by rw [Nat.mul_comm]; exact hle)
  rw [hend]
  by_cases hr : D % L = 0
  · rw [if_pos hr]
    rw [hr, if_pos rfl, Nat.add_zero] at hne
    have hq1 : 1 ≤ D / L := by
      rcases Nat.eq_zero_or_pos (D / L) with h0 | h1
      · rw [h0, Nat.mul_zero] at hdm
        omega
      · exact h1
    rw [hne]
    have hsm : (D / L - 1) * L + L = D / L * L := by
      have h := Nat.succ_mul (D / L - 1) L
      rw [Nat.succ_eq_add_one, show D / L - 1 + 1 = D / L by omega] at h
      omega
    have hc : D / L * L = L * (D / L) := Nat.mul_comm _ _
    omega
  · rw [if_neg hr]
    rw [if_neg hr] at hne
    rw [hne]
    rw [show D / L + 1 - 1 = D / L by omega]
    have hc : D / L * L = L * (D / L) := Nat.mul_comm _ _
    omega

/-- C7 witness: in the 900000 ms / 600000 ms scenario the final segment is
`900000 mod 600000 = 300000` ms long. -/
theorem C7_witness :
    0 < 900000 ∧ 0 < 600000 ∧
      (segment_bounds 900000 600000 (num_chunks 900000 600000 - 1)).2 -
        (segment_bounds 900000 600000 (num_chunks 900000 600000 - 1)).1 =
      if 900000 % 600000 = 0 then 600000 else 900000 % 600000 :=
  ⟨by decide, by decide,
    C7_last_segment_length 900000 600000 (by decide) (by decide)⟩

/-- With a zero-duration track and a sink that never raises, the run takes
the `num_chunks == 0` branch: it ends skipped after the three preparation
updates and the single "完了（スキップ）" update, with no transcript and no
backend call. -/
theorem run_zero_duration (L : Nat) (backend : Backend) (sink : Sink)
    (hL : 0 < L) (hsink : ∀ p m, sink p m = .ok ()) :
    run 0 L backend sink =
      ⟨RunOutcome.skipped,
        [Event.progress 5 "ファイルを一時保存中...",
         Event.progress 10 "WAV形式に変換中...",
         Event.progress 15 "文字起こし準備中...",
         Event.progress 100 "完了（スキップ）"]⟩ := by
  have hn := num_chunks_zero_left L hL
  simp [run, hsink, runFromChunks, hn, prepUpdates]

/-- C5 counterexample: for a zero-duration input the run ends in the
skipped state and no transcript at all is produced, in particular not the
empty-string transcript the claim asserts. -/
theorem C5_counterexample :
    (run 0 600000 constBackend okSink).outcome = RunOutcome.skipped ∧
      (run 0 600000 constBackend okSink).outcome ≠ RunOutcome.finished "" := by
  decide

/-- C5 (amended): for a zero-duration input the chunk count is zero, the
backend is never invoked, the run is not an error (it ends skipped, though
without producing any transcript string), and exactly one "skipped"
progress update is emitted. -/
theorem C5_zero_duration_skips (L : Nat) (backend : Backend) (sink : Sink)
    (hL : 0 < L) (hsink : ∀ p m, sink p m = .ok ()) :
    num_chunks 0 L = 0 ∧
      (run 0 L backend sink).outcome = RunOutcome.skipped ∧
      (∀ e, (run 0 L backend sink).outcome ≠ RunOutcome.failed e) ∧
      (∀ t, (run 0 L backend sink).outcome ≠ RunOutcome.finished t) ∧
      backendCalls (run 0 L backend sink).events = [] ∧
      ((run 0 L backend sink).events.filter isSkippedUpdate).length = 1 := by
  have h := run_zero_duration L backend sink hL hsink
  rw [h]
  refine ⟨num_chunks_zero_left L hL, rfl, ?_, ?_, ?_, ?_⟩
  · intro e hcon
    exact RunOutcome.noConfusion hcon
  · intro t hcon
    exact RunOutcome.noConfusion hcon
  · rfl
  · rfl

/-- C5 witness: the zero-duration behavior at chunk length 600000 with a
constant backend and a sink that never raises. -/
theorem C5_witness :
    0 < 600000 ∧
      (num_chunks 0 600000 = 0 ∧
        (run 0 600000 constBackend okSink).outcome = RunOutcome.skipped ∧
        (∀ e, (run 0 600000 constBackend okSink).outcome ≠
          RunOutcome.failed e) ∧
        (∀ t, (run 0 600000 constBackend okSink).outcome ≠
          RunOutcome.finished t) ∧
        backendCalls (run 0 600000 constBackend okSink).events = [] ∧
        ((run 0 600000 constBackend okSink).events.filter
          isSkippedUpdate).length = 1) :=
  ⟨by decide, C5_zero_duration_skips 600000 constBackend okSink (by decide)
    (fun p m => rfl)⟩

/-- C8: in every run the backend calls are made for the contiguous chunk
indices `0, 1, ..., m-1` in strictly increasing order, one at a time, with
`m` at most the chunk count: the trace of invocations is exactly
`List.range m`. -/
theorem C8_sequential_call_order (D L : Nat) (backend : Backend) (sink : Sink) :
    ∃ m, m ≤ num_chunks D L ∧
      (backendCalls (run D L backend sink).events).map TranscribeArgs.chunkIndex
          = List.range m ∧
      (backendCalls (run D L backend sink).events).length = m := by
  obtain ⟨m, hm, h⟩ := run_backendCalls D L backend sink
  refine ⟨m, hm, ?_, ?_⟩
  · rw [h, List.map_map]
    have hcomp : TranscribeArgs.chunkIndex ∘
        (fun j => (⟨j, false, "ja"⟩ : TranscribeArgs)) = id := rfl
    rw [hcomp, List.map_id]
  · rw [h, List.length_map, List.length_range]

/-- C9 counterexample: two runs identical except for the progress sink — a
sink that never raises and a sink that raises on the first per-chunk
update — produce different outcomes, and the failing sink makes the whole
transcription fail instead of being ignored. -/
theorem C9_counterexample :
    (run 600000 600000 constBackend okSink).outcome =
        RunOutcome.finished "text" ∧
      (run 600000 600000 constBackend badSink).outcome =
        RunOutcome.failed "sink boom" ∧
      (run 600000 600000 constBackend okSink).outcome ≠
        (run 600000 600000 constBackend badSink).outcome := by
  decide

/-- C9 (amended): progress updates are observational only as long as the
sink does not raise: two runs identical except for their never-raising
sinks produce the same result; a raising sink, however, aborts the run,
because its exception is caught by the same top-level handler. -/
theorem C9_sink_observational (D L : Nat) (backend : Backend) (s1 s2 : Sink)
    (h1 : ∀ p m, s1 p m = .ok ()) (h2 : ∀ p m, s2 p m = .ok ()) :
    run D L backend s1 = run D L backend s2 := by
  have hloop := processChunks_sink_irrelevant backend s1 s2 (num_chunks D L) h1 h2
    (num_chunks D L) 0 [] []
  simp only [run, h1, h2]
  unfold runFromChunks
  by_cases hn : num_chunks D L = 0
  · rw [hn]
    simp [h1, h2]
  · simp only [if_neg hn]
    rw [hloop]
    rcases processChunks backend s2 (num_chunks D L) (num_chunks D L) 0 [] []
      with ⟨res, evs⟩
    cases res with
    | error e => rfl
    | ok ts => simp [h1, h2]

/-- C9 witness: two distinct never-raising sinks give identical runs. -/
theorem C9_witness :
    (∀ p m, okSink p m = .ok ()) ∧ (∀ p m, okSink2 p m = .ok ()) ∧
      run 600000 600000 constBackend okSink =
        run 600000 600000 constBackend okSink2 :=
  ⟨fun p m => rfl, fun p m => by simp [okSink2],
    C9_sink_observational 600000 600000 constBackend okSink okSink2
      (fun p m => rfl) (fun p m => by simp [okSink2])⟩

/-- C10: every backend invocation of every run fixes `language="ja"` and
`fp16=False`; neither is configurable through the run's parameters. -/
theorem C10_fixed_backend_args (D L : Nat) (backend : Backend) (sink : Sink) :
    ∀ a ∈ backendCalls (run D L backend sink).events,
      a.language = "ja" ∧ a.fp16 = false := by
  obtain ⟨m, hm, h⟩ := run_backendCalls D L backend sink
  intro a ha
  rw [h] at ha
  simp only [List.mem_map] at ha
  obtain ⟨j, hj, rfl⟩ := ha
  exact ⟨rfl, rfl⟩

/-- C10 witness: the single backend call of a one-chunk run carries
`language="ja"` and `fp16=False`. -/
theorem C10_witness :
    (⟨0, false, "ja"⟩ : TranscribeArgs) ∈
        backendCalls (run 600000 600000 constBackend okSink).events ∧
      (⟨0, false, "ja"⟩ : TranscribeArgs).language = "ja" ∧
      (⟨0, false, "ja"⟩ : TranscribeArgs).fp16 = false :=
  ⟨by decide,
    C10_fixed_backend_args 600000 600000 constBackend okSink _ (by decide)⟩

end TranscribeApp
